import Mathlib

/-!
Verification of the query-safety gate of the chatbot-nlp2sql repository.

Python strings are modelled as `List Char`; `str.upper`/`str.lower` are
modelled by mapping `Char.toUpper`/`Char.toLower` (faithful on the ASCII
inputs the gate manipulates).  Fallible Python functions (those that may
raise) return `Option`.  The database and the language model are external
collaborators and are modelled as oracle parameters.
-/

set_option maxRecDepth 100000

namespace NlpToSql

/-- The backquote character, written via its code point. -/
def tick : Char := Char.ofNat 96

/-- The single-quote character, written via its code point. -/
def sq : Char := Char.ofNat 39

/-- Model of Python `str.upper` (ASCII). -/
def pyUpper (l : List Char) : List Char := l.map Char.toUpper

/-- Model of Python `str.lower` (ASCII). -/
def pyLower (l : List Char) : List Char := l.map Char.toLower

/-- Model of `re.sub(r'```sql|```', '', s)`: left-to-right scan removing
each occurrence of three backquotes followed by `sql`, or else three
backquotes, exactly as the alternation tries the longer branch first. -/
def stripFences : List Char → List Char
  | a :: b :: c :: d :: e :: f :: rest =>
    if a = tick ∧ b = tick ∧ c = tick ∧ d = 's' ∧ e = 'q' ∧ f = 'l' then
      stripFences rest
    else if a = tick ∧ b = tick ∧ c = tick then
      stripFences (d :: e :: f :: rest)
    else
      a :: stripFences (b :: c :: d :: e :: f :: rest)
  | a :: b :: c :: rest =>
    if a = tick ∧ b = tick ∧ c = tick then
      stripFences rest
    else
      a :: stripFences (b :: c :: rest)
  | a :: rest => a :: stripFences rest
  | [] => []

/-- Model of Python `str.strip()`: drop whitespace from both ends. -/
def pyStrip (l : List Char) : List Char :=
  (l.dropWhile Char.isWhitespace).rdropWhile Char.isWhitespace

/-- Model of Python `str.rstrip(';')`: drop trailing semicolons. -/
def rstripSemis (l : List Char) : List Char :=
  l.rdropWhile (fun c => c = ';')

/-- Model of `sql_query.rstrip(';') + ';'`. -/
def normSemi (l : List Char) : List Char := rstripSemis l ++ [';']

/-- The blacklist of `clean_sql_query`. -/
def blacklistTokens : List (List Char) :=
  ["DROP".toList, "DELETE".toList, "UPDATE".toList, "INSERT".toList,
   "ALTER".toList, "--".toList, (';' :: "--".toList), "/*".toList]

/-- Model of `any(word in sql_query.upper() for word in blacklist)`. -/
def containsAnyBlacklisted (s : List Char) : Prop :=
  ∃ w ∈ blacklistTokens, w <:+: pyUpper s

instance (s : List Char) : Decidable (containsAnyBlacklisted s) := by
  unfold containsAnyBlacklisted; infer_instance

/-- Model of `sql_query.upper().startswith("SELECT")`. -/
def startsWithSelect (s : List Char) : Prop :=
  "SELECT".toList <+: pyUpper s

instance (s : List Char) : Decidable (startsWithSelect s) := by
  unfold startsWithSelect; infer_instance

/-- Model of `"JOIN" in sql_query.upper()`. -/
def hasJoin (s : List Char) : Prop :=
  "JOIN".toList <:+: pyUpper s

instance (s : List Char) : Decidable (hasJoin s) := by
  unfold hasJoin; infer_instance

/-- The wrap template `f"SELECT * FROM Departments WHERE {sql_query}"`. -/
def wherePfx : List Char := "SELECT * FROM Departments WHERE ".toList

/-- The fixed fallback `SELECT * FROM Departments WHERE Name = 'Sales';`. -/
def salesFallback : List Char :=
  "SELECT * FROM Departments WHERE Name = ".toList ++
    [sq] ++ "Sales".toList ++ [sq, ';']

/-- The shape-normalization step of `clean_sql_query`. -/
def wrapSelect (s : List Char) : List Char :=
  if startsWithSelect s then s else wherePfx ++ s

/-- Model of `clean_sql_query`: fence stripping, trim, blacklist check
(failure = `none`, for the raised `ValueError`), SELECT wrapping, JOIN
fallback, and semicolon normalization, in the order of the source. -/
def clean_sql_query (raw : List Char) : Option (List Char) :=
  let s1 := pyStrip (stripFences raw)
  if containsAnyBlacklisted s1 then none
  else
    let s2 := wrapSelect s1
    let s3 := if hasJoin s2 then salesFallback else s2
    some (normSemi s3)

/-- Model of the `\w` character class (ASCII). -/
def isWordChar (c : Char) : Bool := c.isAlphanum || c = '_'

/-- Matching of `\s+(\w+)` directly after a literal `of`: at least one
whitespace character, then the greedy capture of word characters. -/
def matchAfterOf (rest : List Char) : Option (List Char) :=
  match rest with
  | [] => none
  | c :: _ =>
    if c.isWhitespace then
      if (rest.dropWhile Char.isWhitespace).takeWhile isWordChar = [] then
        none
      else
        some ((rest.dropWhile Char.isWhitespace).takeWhile isWordChar)
    else none

/-- Model of `re.search(r'(?:of\s+)(\w+)', nl_query)`: scan left to right
for the first position where `of` followed by `\s+(\w+)` matches, and
return the capture. -/
def searchOfDept : List Char → Option (List Char)
  | [] => none
  | c :: cs =>
    if c = 'o' ∧ cs.head? = some 'f' ∧ (matchAfterOf cs.tail).isSome then
      matchAfterOf cs.tail
    else searchOfDept cs

/-- The override template
`f"SELECT Manager FROM Departments WHERE Name = '{dept_name}';"`. -/
def mgrQuery (dept : List Char) : List Char :=
  "SELECT Manager FROM Departments WHERE Name = ".toList ++
    [sq] ++ dept ++ [sq, ';']

/-- The condition `"Who" in nl_query and "manager" in nl_query.lower()`. -/
def overrideCond (nl : List Char) : Prop :=
  "Who".toList <:+: nl ∧ "manager".toList <:+: pyLower nl

instance (nl : List Char) : Decidable (overrideCond nl) := by
  unfold overrideCond; infer_instance

/-- Model of `generate_sql_query`: the model output is cleaned first (a
guard failure propagates), then the pattern-matched override may replace
the guarded query. -/
def generate_sql_query (nl modelOut : List Char) : Option (List Char) :=
  (clean_sql_query modelOut).map fun q =>
    if overrideCond nl then
      match searchOfDept nl with
      | some dept => mgrQuery dept
      | none => q
    else q

/-- What the backing store reports for a query: a raw error message
(modelling a raised `sqlite3.Error`) or columns and rows. -/
inductive DbReply where
  | failure (msg : List Char)
  | rows (cols : List (List Char)) (res : List (List (List Char)))

/-- The error-classification of `execute_sql_query`: a raw database
message is rewritten for `no such table` and `syntax error` (checked on
the lowercased message, in that order) and always prefixed with
`Database error: `. -/
def dbPrefix : List Char := "Database error: ".toList

/-- User-facing message for a missing table. -/
def tableMsg : List Char :=
  "Database table not found. Please ensure the database is properly set up.".toList

/-- User-facing message for a SQL syntax error. -/
def syntaxMsg : List Char :=
  "Invalid SQL query syntax. Please try rephrasing your question.".toList

/-- Whether the lowercased message contains `no such table`. -/
def mentionsNoSuchTable (msg : List Char) : Prop :=
  "no such table".toList <:+: pyLower msg

instance (msg : List Char) : Decidable (mentionsNoSuchTable msg) := by
  unfold mentionsNoSuchTable; infer_instance

/-- Whether the lowercased message contains `syntax error`. -/
def mentionsSyntaxError (msg : List Char) : Prop :=
  "syntax error".toList <:+: pyLower msg

instance (msg : List Char) : Decidable (mentionsSyntaxError msg) := by
  unfold mentionsSyntaxError; infer_instance

/-- The user-facing error string built in the `except sqlite3.Error`
branch of `execute_sql_query`. -/
def execErrorMessage (msg : List Char) : List Char :=
  dbPrefix ++
    (if mentionsNoSuchTable msg then tableMsg
     else if mentionsSyntaxError msg then syntaxMsg
     else msg)

/-- Outcome of `execute_sql_query`: either columns and rows, or the
classified error string (the Python `(None, error_string)` return). -/
inductive ExecOut where
  | ok (cols : List (List Char)) (res : List (List (List Char)))
  | err (msg : List Char)

/-- Model of `execute_sql_query`, with the database as an oracle. -/
def execute_sql_query (db : List Char → DbReply) (q : List Char) : ExecOut :=
  match db q with
  | .failure m => .err (execErrorMessage m)
  | .rows cols res => .ok cols res

/-- The generic message of the `except` branch of `main`. -/
def genericFailureMsg : List Char :=
  "An error occurred while processing your request. Please try again.".toList

/-- Observable effects of one button press in `main`. -/
structure StepResult where
  newCount : Nat
  executorCalls : List (List Char)
  errorShown : Option (List Char)
  hintShown : Bool
  rowsShown : Bool
  noResultShown : Bool
deriving DecidableEq

/-- Model of the request-handling block of `main`: input validation,
generation (whose failure is caught by the `except` branch), a single
execution, result classification, and the failure counter.  `count` is
`st.session_state.error_count` before the press. -/
def processRequest (nl modelOut : List Char) (db : List Char → DbReply)
    (count : Nat) : StepResult :=
  if pyStrip nl = [] then
    ⟨count, [], none, false, false, false⟩
  else
    match generate_sql_query nl modelOut with
    | none => ⟨count + 1, [], some genericFailureMsg, false, false, false⟩
    | some sql =>
      match execute_sql_query db sql with
      | .err m =>
        ⟨count + 1, [sql], some m, decide (3 ≤ count + 1), false, false⟩
      | .ok _ res =>
        if res = [] then ⟨count, [sql], none, false, false, true⟩
        else ⟨0, [sql], none, false, true, false⟩

example : clean_sql_query "DROP TABLE x".toList = none := by decide

example :
    clean_sql_query "Name = Sales".toList =
      some ("SELECT * FROM Departments WHERE Name = Sales;".toList) := by
  decide

example :
    clean_sql_query ("a JOIN b".toList) = some salesFallback := by decide

example :
    generate_sql_query "Who is the manager of Marketing?".toList
      "SELECT Name FROM Departments".toList =
    some (mgrQuery "Marketing".toList) := by decide

example :
    generate_sql_query "Who is the manager of Marketing?".toList
      "DROP TABLE Students".toList = none := by decide

/-! ### Generic list helpers -/

lemma prefInfix {α : Type} {l₁ l₂ : List α} (h : l₁ <+: l₂) : l₁ <:+: l₂ := by
  obtain ⟨t, rfl⟩ := h
  exact ⟨[], t, rfl⟩

lemma sufInfix {α : Type} {l₁ l₂ : List α} (h : l₁ <:+ l₂) : l₁ <:+: l₂ := by
  obtain ⟨t, rfl⟩ := h
  exact ⟨t, [], by simp⟩

lemma getLastQ_eq_of_suffix {α : Type} {a x : List α} (h : a <:+ x)
    (ha : a ≠ []) : a.getLast? = x.getLast? := by
  obtain ⟨t, rfl⟩ := h
  rw [List.getLast?_append]
  cases hl : a.getLast? with
  | none => exact absurd (List.getLast?_eq_none_iff.mp hl) ha
  | some b => rfl

lemma mem_of_getLastQ {α : Type} {l : List α} {a : α}
    (h : l.getLast? = some a) : a ∈ l := by
  rcases List.eq_nil_or_concat l with rfl | ⟨L, b, rfl⟩
  · simp at h
  · simp only [List.concat_eq_append, List.getLast?_concat] at h
    simp [Option.some_inj.mp h]

lemma rstripSemis_append (p t : List Char) (hp : p.getLast? ≠ some ';') :
    rstripSemis (p ++ t) = p ++ rstripSemis t := by
  induction t using List.reverseRecOn with
  | nil =>
    simp only [List.append_nil, rstripSemis, List.rdropWhile_nil]
    rw [List.rdropWhile_eq_self_iff]
    intro hl hc
    rw [decide_eq_true_eq] at hc
    exact hp (by rw [List.getLast?_eq_getLast p hl, hc])
  | append_singleton t x ih =>
    by_cases hx : x = ';'
    · rw [← List.append_assoc, rstripSemis, rstripSemis,
        List.rdropWhile_concat_pos _ _ _ (by simp [hx]),
        List.rdropWhile_concat_pos _ _ _ (by simp [hx])]
      exact ih
    · rw [← List.append_assoc, rstripSemis, rstripSemis,
        List.rdropWhile_concat_neg _ _ _ (by simp [hx]),
        List.rdropWhile_concat_neg _ _ _ (by simp [hx]),
        List.append_assoc]

lemma normSemi_keeps_prefix {p l : List Char} (hp : p.getLast? ≠ some ';')
    (h : p <+: l) : p <+: normSemi l := by
  obtain ⟨t, rfl⟩ := h
  rw [normSemi, rstripSemis_append _ _ hp, List.append_assoc]
  exact List.prefix_append _ _

/-! ### C1: blacklisted input is rejected -/

/-- C1.  Any candidate whose fence-stripped, trimmed form contains a
blacklisted token (case-insensitively, at any position) makes
`clean_sql_query` fail with `ValueError` (modelled as `none`): no query
is returned. -/
theorem blacklisted_candidate_rejected (raw : List Char)
    (h : containsAnyBlacklisted (pyStrip (stripFences raw))) :
    clean_sql_query raw = none := by
  simp only [clean_sql_query, if_pos h]

/-- Witness for C1 at the concrete candidate `DROP TABLE Departments`. -/
theorem blacklisted_candidate_rejected_witness :
    containsAnyBlacklisted
        (pyStrip (stripFences "DROP TABLE Departments".toList)) ∧
      clean_sql_query "DROP TABLE Departments".toList = none :=
  ⟨by decide, blacklisted_candidate_rejected _ (by decide)⟩

/-! ### C3: JOIN forces the Sales fallback -/

/-- C3.  A candidate free of blacklisted tokens whose wrapped form (the
string after fence stripping, trimming, and the optional SELECT wrap)
contains `JOIN` in any letter case is replaced by the guard with exactly
`SELECT * FROM Departments WHERE Name = 'Sales';`. -/
theorem join_candidate_gives_sales_fallback (raw : List Char)
    (h1 : ¬ containsAnyBlacklisted (pyStrip (stripFences raw)))
    (h2 : hasJoin (wrapSelect (pyStrip (stripFences raw)))) :
    clean_sql_query raw = some salesFallback := by
  simp only [clean_sql_query, if_neg h1, if_pos h2]
  decide

/-- Witness for C3 at the concrete candidate `a JOIN b`. -/
theorem join_candidate_gives_sales_fallback_witness :
    (¬ containsAnyBlacklisted (pyStrip (stripFences "a JOIN b".toList))) ∧
      hasJoin (wrapSelect (pyStrip (stripFences "a JOIN b".toList))) ∧
      clean_sql_query "a JOIN b".toList = some salesFallback :=
  ⟨by decide, by decide,
    join_candidate_gives_sales_fallback _ (by decide) (by decide)⟩

/-! ### C4: non-SELECT input is wrapped -/

/-- C4.  For a candidate free of blacklisted tokens whose fence-stripped,
trimmed form does not begin with `SELECT` (case-insensitively), the
guard succeeds and its output starts with
`SELECT * FROM Departments WHERE`. -/
theorem nonselect_candidate_wrapped (raw : List Char)
    (h1 : ¬ containsAnyBlacklisted (pyStrip (stripFences raw)))
    (h2 : ¬ startsWithSelect (pyStrip (stripFences raw))) :
    ∃ q, clean_sql_query raw = some q ∧
      "SELECT * FROM Departments WHERE".toList <+: q := by
  simp only [clean_sql_query, if_neg h1]
  refine ⟨_, rfl, ?_⟩
  apply normSemi_keeps_prefix (by decide)
  by_cases hj : hasJoin (wrapSelect (pyStrip (stripFences raw)))
  · rw [if_pos hj]; decide
  · rw [if_neg hj, wrapSelect, if_neg h2]
    exact List.IsPrefix.trans (by decide) (List.prefix_append _ _)

/-- Witness for C4 at the concrete candidate `Age > 5`. -/
theorem nonselect_candidate_wrapped_witness :
    (¬ containsAnyBlacklisted (pyStrip (stripFences "Age > 5".toList))) ∧
      (¬ startsWithSelect (pyStrip (stripFences "Age > 5".toList))) ∧
      ∃ q, clean_sql_query "Age > 5".toList = some q ∧
        "SELECT * FROM Departments WHERE".toList <+: q :=
  ⟨by decide, by decide, nonselect_candidate_wrapped _ (by decide) (by decide)⟩

/-! ### C2: a guard failure never reaches the executor -/

/-- C2.  When the guard rejects the model output of a (non-empty)
request, the request ends with the generic rejection message, the
failure counter is incremented, and the executor receives no query at
all: no retry, no partial execution. -/
theorem guard_failure_never_reaches_executor (nl out : List Char)
    (db : List Char → DbReply) (count : Nat) (hnl : pyStrip nl ≠ [])
    (h : clean_sql_query out = none) :
    processRequest nl out db count =
      ⟨count + 1, [], some genericFailureMsg, false, false, false⟩ := by
  simp only [processRequest, if_neg hnl, generate_sql_query, h,
    Option.map_none']

/-- Witness for C2 at a concrete rejected request. -/
theorem guard_failure_never_reaches_executor_witness :
    pyStrip "hello".toList ≠ [] ∧
      clean_sql_query "DROP x".toList = none ∧
      processRequest "hello".toList "DROP x".toList
          (fun _ => DbReply.failure []) 0 =
        ⟨1, [], some genericFailureMsg, false, false, false⟩ :=
  ⟨by decide, by decide,
    guard_failure_never_reaches_executor _ _ _ _ (by decide) (by decide)⟩

/-! ### C9: executor error classification -/

/-- C9.  Database failures mentioning `no such table` surface the
table-not-found message and those mentioning `syntax error` the
syntax-error message (each a message distinct from the generic
passthrough for the same raw error); every other database error passes
through under the generic prefix; and a request performs at most one
execution — never an automatic retry. -/
theorem executor_error_classification :
    (∀ msg, mentionsNoSuchTable msg →
      execErrorMessage msg = dbPrefix ++ tableMsg ∧
        execErrorMessage msg ≠ dbPrefix ++ msg) ∧
    (∀ msg, ¬ mentionsNoSuchTable msg → mentionsSyntaxError msg →
      execErrorMessage msg = dbPrefix ++ syntaxMsg ∧
        execErrorMessage msg ≠ dbPrefix ++ msg) ∧
    (∀ msg, ¬ mentionsNoSuchTable msg → ¬ mentionsSyntaxError msg →
      execErrorMessage msg = dbPrefix ++ msg) ∧
    (∀ nl out db count,
      (processRequest nl out db count).executorCalls.length ≤ 1) := by
  refine ⟨?_, ?_, ?_, ?_⟩
  · intro msg h
    refine ⟨by simp [execErrorMessage, if_pos h], fun heq => ?_⟩
    rw [execErrorMessage, if_pos h] at heq
    have hmsg : tableMsg = msg := List.append_cancel_left heq
    rw [← hmsg] at h
    exact absurd h (by decide)
  · intro msg h1 h2
    refine ⟨by simp [execErrorMessage, if_neg h1, if_pos h2], fun heq => ?_⟩
    rw [execErrorMessage, if_neg h1, if_pos h2] at heq
    have hmsg : syntaxMsg = msg := List.append_cancel_left heq
    rw [← hmsg] at h2
    exact absurd h2 (by decide)
  · intro msg h1 h2
    simp [execErrorMessage, if_neg h1, if_neg h2]
  · intro nl out db count
    unfold processRequest
    split
    · simp
    · split
      · simp
      · split
        · simp
        · split <;> simp

/-- Witness for C9 at concrete error messages. -/
theorem executor_error_classification_witness :
    mentionsNoSuchTable "no such table: Departments".toList ∧
      execErrorMessage "no such table: Departments".toList =
        dbPrefix ++ tableMsg ∧
      mentionsSyntaxError "near x: syntax error".toList ∧
      execErrorMessage "near x: syntax error".toList =
        dbPrefix ++ syntaxMsg ∧
      execErrorMessage "locked".toList = dbPrefix ++ "locked".toList :=
  ⟨by decide,
    (executor_error_classification.1 _ (by decide)).1,
    by decide,
    (executor_error_classification.2.1 _ (by decide) (by decide)).1,
    executor_error_classification.2.2.1 _ (by decide) (by decide)⟩

/-! ### C5: the manager override is not independent of the model -/

/-- Counterexample to C5.  For the very question of the claim, a model
output containing a blacklisted keyword makes the guard (which runs
before the override) raise, so no query at all is produced: the model
output can prevent the override. -/
theorem model_output_blocks_manager_override :
    generate_sql_query "Who is the manager of Marketing?".toList
      "DROP TABLE Students".toList = none := by
  decide

/-- C5 as amended.  For the question `Who is the manager of Marketing?`,
whenever the guard succeeds on the model output — whatever that output
is — the override produces exactly
`SELECT Manager FROM Departments WHERE Name = 'Marketing';`. -/
theorem manager_override_when_guard_succeeds (out q : List Char)
    (h : clean_sql_query out = some q) :
    generate_sql_query "Who is the manager of Marketing?".toList out =
      some (mgrQuery "Marketing".toList) := by
  unfold generate_sql_query
  rw [h, Option.map_some', if_pos (by decide : overrideCond
    "Who is the manager of Marketing?".toList)]
  have hs : searchOfDept "Who is the manager of Marketing?".toList =
      some "Marketing".toList := by decide
  rw [hs]

/-- Witness for amended C5 at a concrete guard-passing model output. -/
theorem manager_override_when_guard_succeeds_witness :
    clean_sql_query "SELECT Name FROM Departments".toList =
        some "SELECT Name FROM Departments;".toList ∧
      generate_sql_query "Who is the manager of Marketing?".toList
          "SELECT Name FROM Departments".toList =
        some (mgrQuery "Marketing".toList) :=
  ⟨by decide, manager_override_when_guard_succeeds _
    "SELECT Name FROM Departments;".toList (by decide)⟩

/-! ### C6: the override matches `Who` case-sensitively -/

/-- Counterexample to C6.  With `who` in lower case (and `manager` and
an `of <word>` present) the override does not fire: the guarded query is
returned instead of the manager query. -/
theorem lowercase_who_skips_override :
    generate_sql_query "who is the manager of Marketing?".toList
        "SELECT Name FROM Departments".toList =
      some "SELECT Name FROM Departments;".toList ∧
    some "SELECT Name FROM Departments;".toList ≠
      some (mgrQuery "Marketing".toList) := by
  constructor <;> decide

/-- C6 as amended.  The override fires exactly when the question
contains the substring `Who` with that exact capitalization (the
`manager` test is genuinely case-insensitive, being applied to the
lowercased question) and `of` followed by a word matches; without the
exact substring `Who` the guarded query is returned unchanged. -/
theorem override_requires_exact_Who :
    (∀ nl out q d, "Who".toList <:+: nl →
      "manager".toList <:+: pyLower nl →
      searchOfDept nl = some d → clean_sql_query out = some q →
      generate_sql_query nl out = some (mgrQuery d)) ∧
    (∀ nl out q, ¬ ("Who".toList <:+: nl) →
      clean_sql_query out = some q →
      generate_sql_query nl out = some q) := by
  constructor
  · intro nl out q d h1 h2 h3 h4
    unfold generate_sql_query
    rw [h4, Option.map_some',
      if_pos (show overrideCond nl from ⟨h1, h2⟩), h3]
  · intro nl out q h1 h2
    unfold generate_sql_query
    rw [h2, Option.map_some', if_neg (fun hc => h1 hc.1)]

/-- Witness for amended C6 at a concrete question and model output. -/
theorem override_requires_exact_Who_witness :
    ("Who".toList <:+: "Who is the manager of Sales?".toList) ∧
      ("manager".toList <:+:
        pyLower "Who is the manager of Sales?".toList) ∧
      searchOfDept "Who is the manager of Sales?".toList =
        some "Sales".toList ∧
      clean_sql_query "SELECT Name FROM Departments".toList =
        some "SELECT Name FROM Departments;".toList ∧
      generate_sql_query "Who is the manager of Sales?".toList
          "SELECT Name FROM Departments".toList =
        some (mgrQuery "Sales".toList) :=
  ⟨by decide, by decide, by decide, by decide,
    override_requires_exact_Who.1 _ _
      "SELECT Name FROM Departments;".toList "Sales".toList (by decide)
      (by decide) (by decide) (by decide)⟩

/-! ### C10: shape of the override's construction -/

lemma matchAfterOf_spec {r d : List Char} (h : matchAfterOf r = some d) :
    d ≠ [] ∧ ∀ c ∈ d, isWordChar c = true := by
  unfold matchAfterOf at h
  split at h
  · exact absurd h (by simp)
  · split at h
    · split at h
      · exact absurd h (by simp)
      · rename_i hcap
        rw [Option.some_inj] at h
        subst h
        exact ⟨hcap, fun c hc => List.mem_takeWhile_imp hc⟩
    · exact absurd h (by simp)

lemma searchOfDept_spec {nl d : List Char} (h : searchOfDept nl = some d) :
    d ≠ [] ∧ ∀ c ∈ d, isWordChar c = true := by
  induction nl with
  | nil => exact absurd h (by simp [searchOfDept])
  | cons c cs ih =>
    rw [searchOfDept] at h
    split at h
    · exact matchAfterOf_spec h
    · exact ih h

/-- Counterexample to C10.  The `\w+` capture can itself be a
blacklisted keyword: for `Who is the manager of DROP?` the override
produces a query that does contain a blacklisted token. -/
theorem override_can_emit_blacklisted_keyword :
    generate_sql_query "Who is the manager of DROP?".toList
        "SELECT Name FROM Departments".toList =
      some (mgrQuery "DROP".toList) ∧
    containsAnyBlacklisted (mgrQuery "DROP".toList) := by
  constructor <;> decide

/-- C10 as amended.  The captured department is a non-empty run of word
characters, so the constructed query contains exactly the template's two
single quotes (no quote can escape the literal) and exactly one
semicolon (no second statement), and none of the blacklisted
comment/injection markers `--`, `;--`, `/*`; alphabetic blacklisted
keywords, however, can appear inside the literal. -/
theorem override_capture_shape (nl d : List Char)
    (h : searchOfDept nl = some d) :
    d ≠ [] ∧ (∀ c ∈ d, isWordChar c = true) ∧
      (mgrQuery d).count sq = 2 ∧
      (mgrQuery d).count ';' = 1 ∧
      ¬ ("--".toList <:+: mgrQuery d) ∧
      ¬ ((';' :: "--".toList) <:+: mgrQuery d) ∧
      ¬ ("/*".toList <:+: mgrQuery d) := by
  obtain ⟨hne, hword⟩ := searchOfDept_spec h
  have hsq : sq ∉ d := fun hm => by
    have := hword _ hm
    rw [show isWordChar sq = false from by decide] at this
    exact absurd this (by simp)
  have hsemi : (';' : Char) ∉ d := fun hm => by
    have := hword _ hm
    rw [show isWordChar ';' = false from by decide] at this
    exact absurd this (by simp)
  have hdash : ('-' : Char) ∉ d := fun hm => by
    have := hword _ hm
    rw [show isWordChar '-' = false from by decide] at this
    exact absurd this (by simp)
  have hslash : ('/' : Char) ∉ d := fun hm => by
    have := hword _ hm
    rw [show isWordChar '/' = false from by decide] at this
    exact absurd this (by simp)
  have hdashq : ('-' : Char) ∉ mgrQuery d := by
    intro hm
    rw [mgrQuery] at hm
    simp only [List.mem_append, List.mem_cons, List.mem_singleton] at hm
    rcases hm with ((hm | hm) | hm) | hm | hm
    · exact absurd hm (by decide)
    · exact absurd hm (by decide)
    · exact hdash hm
    · exact absurd hm (by decide)
    · rcases hm with hm | hm
      · exact absurd hm (by decide)
      · exact absurd hm (by simp)
  have hslashq : ('/' : Char) ∉ mgrQuery d := by
    intro hm
    rw [mgrQuery] at hm
    simp only [List.mem_append, List.mem_cons, List.mem_singleton] at hm
    rcases hm with ((hm | hm) | hm) | hm | hm
    · exact absurd hm (by decide)
    · exact absurd hm (by decide)
    · exact hslash hm
    · exact absurd hm (by decide)
    · rcases hm with hm | hm
      · exact absurd hm (by decide)
      · exact absurd hm (by simp)
  refine ⟨hne, hword, ?_, ?_, ?_, ?_, ?_⟩
  · rw [mgrQuery]
    simp only [List.count_append]
    rw [List.count_eq_zero.mpr hsq]
    decide
  · rw [mgrQuery]
    simp only [List.count_append]
    rw [List.count_eq_zero.mpr hsemi]
    decide
  · intro hinf
    exact hdashq ( List.IsInfix.subset hinf (by decide))
  · intro hinf
    exact hdashq ( List.IsInfix.subset hinf (by decide))
  · intro hinf
    exact hslashq ( List.IsInfix.subset hinf (by decide))

/-- Witness for amended C10 at a concrete question. -/
theorem override_capture_shape_witness :
    searchOfDept "Who is the manager of Sales?".toList =
        some "Sales".toList ∧
      ("Sales".toList ≠ [] ∧
        (∀ c ∈ "Sales".toList, isWordChar c = true) ∧
        (mgrQuery "Sales".toList).count sq = 2 ∧
        (mgrQuery "Sales".toList).count ';' = 1 ∧
        ¬ ("--".toList <:+: mgrQuery "Sales".toList) ∧
        ¬ ((';' :: "--".toList) <:+: mgrQuery "Sales".toList) ∧
        ¬ ("/*".toList <:+: mgrQuery "Sales".toList)) :=
  ⟨by decide, override_capture_shape
    "Who is the manager of Sales?".toList "Sales".toList (by decide)⟩

/-! ### C8: the failure counter and the rephrase hint -/

/-- Counterexample to C8.  Four consecutive execution failures in one
session (counter 0 → 1 → 2 → 3 → 4): the hint is shown at the third
failure and shown again at the fourth, refuting `exactly once`. -/
theorem hint_repeats_after_third_failure :
    (processRequest "hello".toList "SELECT Name FROM Departments".toList
        (fun _ => DbReply.failure "boom".toList) 0).newCount = 1 ∧
    (processRequest "hello".toList "SELECT Name FROM Departments".toList
        (fun _ => DbReply.failure "boom".toList) 1).newCount = 2 ∧
    (processRequest "hello".toList "SELECT Name FROM Departments".toList
        (fun _ => DbReply.failure "boom".toList) 2).newCount = 3 ∧
    (processRequest "hello".toList "SELECT Name FROM Departments".toList
        (fun _ => DbReply.failure "boom".toList) 2).hintShown = true ∧
    (processRequest "hello".toList "SELECT Name FROM Departments".toList
        (fun _ => DbReply.failure "boom".toList) 3).hintShown = true := by
  refine ⟨?_, ?_, ?_, ?_, ?_⟩ <;> decide

/-- C8 as amended.  The counter increments on each guard failure and on
each execution failure; the rephrase hint is shown on every
execution-failure step whose incremented count is at least three (hence
at the third consecutive failure and again at each later one), and never
on a guard-failure step; the counter resets to zero on a successful
non-empty result. -/
theorem failure_counter_behavior :
    (∀ nl out db count, pyStrip nl ≠ [] →
      generate_sql_query nl out = none →
      (processRequest nl out db count).newCount = count + 1 ∧
        (processRequest nl out db count).hintShown = false) ∧
    (∀ nl out db count sql m, pyStrip nl ≠ [] →
      generate_sql_query nl out = some sql →
      db sql = DbReply.failure m →
      (processRequest nl out db count).newCount = count + 1 ∧
        ((processRequest nl out db count).hintShown = true ↔
          3 ≤ count + 1)) ∧
    (∀ nl out db count sql cols res, pyStrip nl ≠ [] →
      generate_sql_query nl out = some sql →
      db sql = DbReply.rows cols res → res ≠ [] →
      (processRequest nl out db count).newCount = 0) := by
  refine ⟨?_, ?_, ?_⟩
  · intro nl out db count hnl hgen
    simp [processRequest, if_neg hnl, hgen]
  · intro nl out db count sql m hnl hgen hdb
    simp [processRequest, if_neg hnl, hgen, execute_sql_query, hdb]
  · intro nl out db count sql cols res hnl hgen hdb hres
    simp [processRequest, if_neg hnl, hgen, execute_sql_query, hdb,
      if_neg hres]

/-- Witness for amended C8: an execution failure at counter 2 reaches
count 3 and shows the hint; a successful non-empty result resets the
counter to 0. -/
theorem failure_counter_behavior_witness :
    (pyStrip "hi".toList ≠ [] ∧
      generate_sql_query "hi".toList "SELECT Name FROM Departments".toList =
        some "SELECT Name FROM Departments;".toList ∧
      (fun _ => DbReply.failure "boom".toList :
          List Char → DbReply) "SELECT Name FROM Departments;".toList =
        DbReply.failure "boom".toList ∧
      (processRequest "hi".toList "SELECT Name FROM Departments".toList
          (fun _ => DbReply.failure "boom".toList) 2).newCount = 2 + 1) ∧
    (processRequest "hi".toList "SELECT Name FROM Departments".toList
        (fun _ => DbReply.rows [] [["x".toList]]) 2).newCount = 0 :=
  ⟨⟨by decide, by decide, rfl,
    (failure_counter_behavior.2.1 "hi".toList
      "SELECT Name FROM Departments".toList
      (fun _ => DbReply.failure "boom".toList) 2
      "SELECT Name FROM Departments;".toList "boom".toList
      (by decide) (by decide) rfl).1⟩,
    failure_counter_behavior.2.2 "hi".toList
      "SELECT Name FROM Departments".toList
      (fun _ => DbReply.rows [] [["x".toList]]) 2
      "SELECT Name FROM Departments;".toList [] [["x".toList]]
      (by decide) (by decide) rfl (by simp)⟩

/-! ### C7: idempotence of the guard — infrastructure -/

lemma infix_append_split {α : Type} {w x y : List α} (h : w <:+: x ++ y) :
    w <:+: x ∨ w <:+: y ∨
      ∃ a b, a ≠ [] ∧ b ≠ [] ∧ w = a ++ b ∧ a <:+ x ∧ b <+: y := by
  obtain ⟨u, v, huv⟩ := h
  rcases List.append_eq_append_iff.mp huv with ⟨m, hm1, hm2⟩ | ⟨m, hm1, hm2⟩
  · exact Or.inl ⟨u, m, hm1.symm⟩
  · rcases List.append_eq_append_iff.mp hm1 with ⟨n, hn1, hn2⟩ | ⟨n, hn1, hn2⟩
    · rcases eq_or_ne n [] with rfl | hnne
      · subst hn2
        exact Or.inr (Or.inl ⟨[], v, by simpa using hm2.symm⟩)
      · rcases eq_or_ne m [] with rfl | hmne
        · subst hn2
          exact Or.inl ⟨u, [], by simp [hn1]⟩
        · exact Or.inr (Or.inr ⟨n, m, hnne, hmne, hn2,
            ⟨u, hn1.symm⟩, ⟨v, hm2.symm⟩⟩)
    · subst hn2
      exact Or.inr (Or.inl ⟨n, v, hm2.symm⟩)

lemma infix_concat_elim {α : Type} {w x : List α} {c : α}
    (h : w <:+: x ++ [c]) (hl : w.getLast? ≠ some c) : w <:+: x := by
  obtain ⟨u, v, huv⟩ := h
  rcases List.eq_nil_or_concat v with rfl | ⟨v', cv, rfl⟩
  · rw [List.append_nil] at huv
    rcases List.eq_nil_or_concat w with rfl | ⟨w', cw, rfl⟩
    · exact ⟨x, [], by simp⟩
    · exfalso
      apply hl
    -- the last element of `u ++ (w' ++ [cw])` is both `cw` and `c`
      simp only [List.concat_eq_append] at huv
      have h1 : (u ++ w' ++ [cw]).getLast? = some cw :=
        List.getLast?_concat _
      rw [← List.append_assoc] at huv
      rw [huv, List.getLast?_concat] at h1
      simp only [List.concat_eq_append, List.getLast?_concat]
      exact h1.symm
  · simp only [List.concat_eq_append] at huv
    rw [← List.append_assoc] at huv
    have h2 := List.append_inj' huv (by simp)
    exact ⟨u, v', h2.1⟩

lemma infix_append_of_disjoint {α : Type} {w x y : List α}
    (hd : ∀ c ∈ x, c ∉ w) (h : w <:+: x ++ y) : w <:+: y := by
  rcases infix_append_split h with hx | hy | ⟨a, b, hane, hbne, rfl, hsuf, hpre⟩
  · rcases List.eq_nil_or_concat w with rfl | ⟨w', cw, rfl⟩
    · exact ⟨[], y, by simp⟩
    · exfalso
      have hmem : cw ∈ x := List.IsInfix.subset hx (by simp)
      exact hd _ hmem (by simp)
  · exact hy
  · exfalso
    rcases List.eq_nil_or_concat a with rfl | ⟨a', ca, rfl⟩
    · exact hane rfl
    · have hmem : ca ∈ x := List.IsSuffix.subset hsuf (by simp)
      exact hd _ hmem (by simp)

lemma pyStripWithin (l : List Char) : pyStrip l <:+: l :=
  ( prefInfix (List.rdropWhile_prefix _ _)).trans
    (sufInfix (List.dropWhile_suffix _))

lemma pyStrip_eq_self {l : List Char} {a b : Char}
    (h1 : l.head? = some a) (h2 : a.isWhitespace = false)
    (h3 : l.getLast? = some b) (h4 : b.isWhitespace = false) :
    pyStrip l = l := by
  have hd : l.dropWhile Char.isWhitespace = l := by
    cases l with
    | nil => rfl
    | cons c t =>
      rw [List.head?_cons, Option.some_inj] at h1
      subst h1
      rw [List.dropWhile_cons, if_neg (by rw [h2]; simp)]
  rw [pyStrip, hd, List.rdropWhile_eq_self_iff]
  intro hne hws
  rw [List.getLast?_eq_getLast l hne, Option.some_inj] at h3
  rw [h3] at hws
  rw [hws] at h4
  exact absurd h4 (by simp)

lemma normSemi_idem (l : List Char) : normSemi (normSemi l) = normSemi l := by
  rw [normSemi, normSemi, rstripSemis, rstripSemis,
    List.rdropWhile_concat_pos _ _ _ (by simp),
    List.rdropWhile_idempotent]

lemma ws_toUpper_fix {c : Char} (h : c.isWhitespace = true) :
    c.toUpper = c := by
  replace h : (c = ' ' || c = '\t' || c = '\r' || c = '\n') = true := h
  simp only [Bool.or_eq_true, decide_eq_true_eq] at h
  rcases h with ((rfl | rfl) | rfl) | rfl <;> decide

lemma not_ws_of_toUpper {c x : Char} (h : c.toUpper = x)
    (hx : x.isWhitespace = false) : c.isWhitespace = false := by
  cases hc : c.isWhitespace with
  | false => rfl
  | true =>
    rw [ws_toUpper_fix hc] at h
    subst h
    rw [hc] at hx
    exact absurd hx (by simp)

lemma ne_semi_of_toUpper {c x : Char} (h : c.toUpper = x)
    (hx : x ≠ ';') : c ≠ ';' := by
  intro hc
  subst hc
  exact hx (by rw [← h]; decide)

lemma stripFences_step (l : List Char) :
    (∃ r, l = [tick, tick, tick, 's', 'q', 'l'] ++ r ∧
        stripFences l = stripFences r) ∨
    ((∀ r, l ≠ [tick, tick, tick, 's', 'q', 'l'] ++ r) ∧
      ∃ r, l = [tick, tick, tick] ++ r ∧ stripFences l = stripFences r) ∨
    ((∀ r, l ≠ [tick, tick, tick, 's', 'q', 'l'] ++ r) ∧
      (∀ r, l ≠ [tick, tick, tick] ++ r) ∧
      (l = [] ∨ ∃ a t, l = a :: t ∧ stripFences l = a :: stripFences t)) := by
  rcases l with _ | ⟨a, _ | ⟨b, _ | ⟨c, _ | ⟨d, _ | ⟨e, _ | ⟨f, rest⟩⟩⟩⟩⟩⟩
  · exact Or.inr (Or.inr ⟨by simp, by simp, Or.inl rfl⟩)
  · exact Or.inr (Or.inr ⟨by simp, by simp,
      Or.inr ⟨a, [], rfl, by simp [stripFences]⟩⟩)
  · exact Or.inr (Or.inr ⟨by simp, by simp,
      Or.inr ⟨a, [b], rfl, by simp [stripFences]⟩⟩)
  · by_cases h3 : a = tick ∧ b = tick ∧ c = tick
    · obtain ⟨rfl, rfl, rfl⟩ := h3
      refine Or.inr (Or.inl ⟨by simp, [], rfl, ?_⟩)
      simp [stripFences]
    · refine Or.inr (Or.inr ⟨by simp, ?_, Or.inr ⟨a, [b, c], rfl, ?_⟩⟩)
      · intro r hr
        simp only [List.cons_append, List.nil_append, List.cons.injEq] at hr
        exact h3 ⟨hr.1, hr.2.1, hr.2.2.1⟩
      · simp only [stripFences]
        rw [if_neg h3]
  · by_cases h3 : a = tick ∧ b = tick ∧ c = tick
    · obtain ⟨rfl, rfl, rfl⟩ := h3
      refine Or.inr (Or.inl ⟨by simp, [d], rfl, ?_⟩)
      simp [stripFences]
    · refine Or.inr (Or.inr ⟨by simp, ?_, Or.inr ⟨a, [b, c, d], rfl, ?_⟩⟩)
      · intro r hr
        simp only [List.cons_append, List.nil_append, List.cons.injEq] at hr
        exact h3 ⟨hr.1, hr.2.1, hr.2.2.1⟩
      · simp only [stripFences]
        rw [if_neg h3]
  · by_cases h3 : a = tick ∧ b = tick ∧ c = tick
    · obtain ⟨rfl, rfl, rfl⟩ := h3
      refine Or.inr (Or.inl ⟨by simp, [d, e], rfl, ?_⟩)
      simp [stripFences]
    · refine Or.inr (Or.inr ⟨by simp, ?_, Or.inr ⟨a, [b, c, d, e], rfl, ?_⟩⟩)
      · intro r hr
        simp only [List.cons_append, List.nil_append, List.cons.injEq] at hr
        exact h3 ⟨hr.1, hr.2.1, hr.2.2.1⟩
      · simp only [stripFences]
        rw [if_neg h3]
  · by_cases h6 : a = tick ∧ b = tick ∧ c = tick ∧ d = 's' ∧ e = 'q' ∧ f = 'l'
    · obtain ⟨rfl, rfl, rfl, rfl, rfl, rfl⟩ := h6
      refine Or.inl ⟨rest, rfl, ?_⟩
      simp [stripFences]
    · by_cases h3 : a = tick ∧ b = tick ∧ c = tick
      · obtain ⟨rfl, rfl, rfl⟩ := h3
        have h6' : ¬(d = 's' ∧ e = 'q' ∧ f = 'l') := fun hc =>
          h6 ⟨rfl, rfl, rfl, hc.1, hc.2.1, hc.2.2⟩
        refine Or.inr (Or.inl ⟨?_, d :: e :: f :: rest, rfl, ?_⟩)
        · intro r hr
          simp only [List.cons_append, List.nil_append, List.cons.injEq] at hr
          exact h6' ⟨hr.2.2.2.1, hr.2.2.2.2.1, hr.2.2.2.2.2.1⟩
        · simp [stripFences, h6']
      · refine Or.inr (Or.inr ⟨?_, ?_,
          Or.inr ⟨a, b :: c :: d :: e :: f :: rest, rfl, ?_⟩⟩)
        · intro r hr
          simp only [List.cons_append, List.nil_append, List.cons.injEq] at hr
          exact h6 ⟨hr.1, hr.2.1, hr.2.2.1, hr.2.2.2.1, hr.2.2.2.2.1,
            hr.2.2.2.2.2.1⟩
        · intro r hr
          simp only [List.cons_append, List.nil_append, List.cons.injEq] at hr
          exact h3 ⟨hr.1, hr.2.1, hr.2.2.1⟩
        · simp only [stripFences]
          rw [if_neg h6, if_neg h3]

lemma stripFences_cons_of_ne {x : Char} (t : List Char) (hx : x ≠ tick) :
    ∃ u, stripFences (x :: t) = x :: u := by
  rcases stripFences_step (x :: t) with ⟨r, he, _⟩ | ⟨_, r, he, _⟩ |
    ⟨_, _, hc⟩
  · exact absurd (List.head_eq_of_cons_eq he) hx
  · exact absurd (List.head_eq_of_cons_eq he) hx
  · rcases hc with he | ⟨a, t', he, hs⟩
    · exact absurd he (by simp)
    · obtain rfl := List.head_eq_of_cons_eq he
      obtain rfl := List.tail_eq_of_cons_eq he
      exact ⟨_, hs⟩

lemma stripFences_not_lead2 {t : List Char}
    (h : ¬ [tick, tick] <+: t) :
    ¬ [tick, tick] <+: stripFences t := by
  rcases t with _ | ⟨b, t'⟩
  · intro hp
    rw [show stripFences [] = [] from rfl] at hp
    exact absurd hp (by decide)
  · by_cases hb : b = tick
    · subst hb
      have ht' : ¬ [tick] <+: t' := fun hp =>
        h (List.cons_prefix_cons.mpr ⟨rfl, hp⟩)
      rcases t' with _ | ⟨c, t''⟩
      · rw [show stripFences [tick] = [tick] from by decide]
        decide
      · have hc : c ≠ tick := fun hcc =>
          ht' (List.cons_prefix_cons.mpr ⟨hcc.symm, by simp⟩)
        have hstep : stripFences (tick :: c :: t'') =
            tick :: stripFences (c :: t'') := by
          rcases stripFences_step (tick :: c :: t'') with
            ⟨r, he, _⟩ | ⟨_, r, he, _⟩ | ⟨_, _, hcase⟩
          · exact absurd (List.head_eq_of_cons_eq
              (List.tail_eq_of_cons_eq he)) hc
          · exact absurd (List.head_eq_of_cons_eq
              (List.tail_eq_of_cons_eq he)) hc
          · rcases hcase with he | ⟨a, s, he, hs⟩
            · exact absurd he (by simp)
            · obtain rfl := List.head_eq_of_cons_eq he
              obtain rfl := List.tail_eq_of_cons_eq he
              exact hs
        rw [hstep]
        obtain ⟨u, hu⟩ := stripFences_cons_of_ne t'' hc
        rw [hu]
        intro hp
        have := (List.cons_prefix_cons.mp
          ((List.cons_prefix_cons.mp hp).2)).1
        exact hc this.symm
    · obtain ⟨u, hu⟩ := stripFences_cons_of_ne t' hb
      rw [hu]
      intro hp
      exact hb (List.cons_prefix_cons.mp hp).1.symm

lemma noTriple_stripFences (l : List Char) :
    ¬ ([tick, tick, tick] <:+: stripFences l) := by
  have H : ∀ n (l : List Char), l.length ≤ n →
      ¬ ([tick, tick, tick] <:+: stripFences l) := by
    intro n
    induction n with
    | zero =>
      intro l hl
      rw [List.length_eq_zero.mp (Nat.le_zero.mp hl)]
      decide
    | succ n ih =>
      intro l hlen
      rcases stripFences_step l with ⟨r, rfl, hs⟩ | ⟨_, r, rfl, hs⟩ |
        ⟨hTS, hT3, hc⟩
      · rw [hs]
        exact ih r (by simp at hlen; omega)
      · rw [hs]
        exact ih r (by simp at hlen; omega)
      · rcases hc with rfl | ⟨a, t, rfl, hs⟩
        · decide
        · rw [hs]
          intro htr
          rcases List.infix_cons_iff.mp htr with hpre | hinf
          · obtain ⟨ha, hpre2⟩ := List.cons_prefix_cons.mp hpre
            have ht : ¬ ([tick, tick] <+: t) := by
              rintro ⟨s, hs2⟩
              exact hT3 s (by rw [← ha, ← hs2]; simp)
            exact stripFences_not_lead2 ht hpre2
          · exact ih t (by simp at hlen; omega) hinf
  exact H l.length l le_rfl

lemma stripFences_eq_self {l : List Char}
    (h : ¬ ([tick, tick, tick] <:+: l)) : stripFences l = l := by
  have H : ∀ n (l : List Char), l.length ≤ n →
      ¬ ([tick, tick, tick] <:+: l) → stripFences l = l := by
    intro n
    induction n with
    | zero =>
      intro l hl _
      rw [List.length_eq_zero.mp (Nat.le_zero.mp hl)]
      rfl
    | succ n ih =>
      intro l hlen hni
      rcases stripFences_step l with ⟨r, rfl, _⟩ | ⟨_, r, rfl, _⟩ |
        ⟨_, _, hc⟩
      · exact absurd ( prefInfix ⟨'s' :: 'q' :: 'l' :: r, by simp⟩) hni
      · exact absurd ( prefInfix ⟨r, by simp⟩) hni
      · rcases hc with rfl | ⟨a, t, rfl, hs⟩
        · rfl
        · rw [hs, ih t (by simp at hlen; omega)
            (fun hinf => hni (List.infix_cons hinf))]
  exact H l.length l le_rfl h

lemma select_decomp {s1 : List Char} (hsel : startsWithSelect s1) :
    ∃ p rest, s1 = p ++ rest ∧
      List.map Char.toUpper p = "SELECT".toList ∧
      p.getLast? ≠ some ';' ∧
      ∃ c0 p', p = c0 :: p' ∧ c0.toUpper = 'S' := by
  obtain ⟨t, ht⟩ := hsel
  have ht' : List.map Char.toUpper s1 = "SELECT".toList ++ t := ht.symm
  obtain ⟨p, rest, hps, hmapp, hmapr⟩ := List.map_eq_append_iff.mp ht'
  refine ⟨p, rest, hps, hmapp, ?_, ?_⟩
  · intro heq
    have hlp : (List.map Char.toUpper p).getLast? = some 'T' := by
      rw [hmapp]; decide
    rw [List.getLast?_map, heq] at hlp
    exact absurd (Option.some_inj.mp hlp) (by decide)
  · cases p with
    | nil => exact absurd hmapp (by decide)
    | cons c0 p' =>
      refine ⟨c0, p', rfl, ?_⟩
      rw [List.map_cons] at hmapp
      exact List.head_eq_of_cons_eq hmapp

lemma clean_of_fixed {q : List Char}
    (hsf : stripFences q = q) (hps : pyStrip q = q)
    (hbq : ¬ containsAnyBlacklisted q) (hselq : startsWithSelect q)
    (hjq : ¬ hasJoin q) (hnq : normSemi q = q) :
    clean_sql_query q = some q := by
  have hw : wrapSelect q = q := by
    simp only [wrapSelect]
    rw [if_pos hselq]
  simp only [clean_sql_query, hsf, hps]
  rw [if_neg hbq, hw, if_neg hjq, hnq]

lemma clean_fixpoint_aux (s1 : List Char)
    (hnt : ¬ ([tick, tick, tick] <:+: s1))
    (hb : ¬ containsAnyBlacklisted s1)
    (hj : ¬ hasJoin (wrapSelect s1)) :
    clean_sql_query (normSemi (wrapSelect s1)) =
      some (normSemi (wrapSelect s1)) := by
  have hlastq : (normSemi (wrapSelect s1)).getLast? = some ';' := by
    rw [normSemi]
    exact List.getLast?_concat _
  have hrpre : rstripSemis (wrapSelect s1) <+: wrapSelect s1 :=
    List.rdropWhile_prefix _ _
  have hnt2 : ¬ ([tick, tick, tick] <:+: wrapSelect s1) := by
    simp only [wrapSelect]
    split
    · exact hnt
    · exact fun h => hnt (infix_append_of_disjoint (by decide) h)
  have hntq : ¬ ([tick, tick, tick] <:+: normSemi (wrapSelect s1)) := by
    rw [normSemi]
    intro h
    exact hnt2 (( infix_concat_elim h (by decide)).trans ( prefInfix hrpre))
  have hsf : stripFences (normSemi (wrapSelect s1)) =
      normSemi (wrapSelect s1) := stripFences_eq_self hntq
  have hUq : pyUpper (normSemi (wrapSelect s1)) =
      pyUpper (rstripSemis (wrapSelect s1)) ++ [';'] := by
    simp only [normSemi, pyUpper, List.map_append]
    rw [show List.map Char.toUpper [';'] = [';'] from by decide]
  have hinfq : ∀ w : List Char, w.getLast? ≠ some ';' →
      (w <:+: pyUpper (normSemi (wrapSelect s1))) →
      w <:+: pyUpper (wrapSelect s1) := by
    intro w hwl hw
    rw [hUq] at hw
    exact ( infix_concat_elim hw hwl).trans
      ( prefInfix (List.IsPrefix.map _ hrpre))
  have hjq : ¬ hasJoin (normSemi (wrapSelect s1)) := by
    intro h
    exact hj (hinfq _ (by decide) h)
  have hbq : ¬ containsAnyBlacklisted (normSemi (wrapSelect s1)) := by
    intro hcb
    obtain ⟨w, hwB, hwInf⟩ := hcb
    have hwlast : w.getLast? ≠ some ';' := by
      revert hwB
      have : ∀ w' ∈ blacklistTokens, w'.getLast? ≠ some ';' := by decide
      exact this w
    have hw2 := hinfq w hwlast hwInf
    revert hw2
    simp only [wrapSelect]
    split
    · exact fun hw2 => hb ⟨w, hwB, hw2⟩
    · intro hw2
      simp only [pyUpper, List.map_append] at hw2
      rcases infix_append_split hw2 with hx | hy |
        ⟨a, b2, hane, hbne, heq, hsuf, hpre⟩
      · have hnone : ∀ w' ∈ blacklistTokens,
            ¬ w' <:+: List.map Char.toUpper wherePfx := by decide
        exact hnone w hwB hx
      · exact hb ⟨w, hwB, hy⟩
      · have hla : a.getLast? = some ' ' := by
          rw [getLastQ_eq_of_suffix hsuf hane]
          decide
        have hmem : (' ' : Char) ∈ w := by
          rw [heq]
          exact List.mem_append.mpr (Or.inl (mem_of_getLastQ hla))
        have hnosp : ∀ w' ∈ blacklistTokens, (' ' : Char) ∉ w' := by decide
        exact hnosp w hwB hmem
  by_cases hsel : startsWithSelect s1
  · have hs2 : wrapSelect s1 = s1 := by
      simp only [wrapSelect]
      rw [if_pos hsel]
    obtain ⟨p, rest, hps, hmapp, hplast, c0, p', hpc, hc0⟩ :=
      select_decomp hsel
    have hq : normSemi (wrapSelect s1) =
        p ++ (rstripSemis rest ++ [';']) := by
      rw [hs2, normSemi]
      conv_lhs => rw [hps]
      rw [rstripSemis_append _ _ hplast, List.append_assoc]
    have hhead : (normSemi (wrapSelect s1)).head? = some c0 := by
      rw [hq, hpc]
      rfl
    have hselq : startsWithSelect (normSemi (wrapSelect s1)) := by
      show "SELECT".toList <+: pyUpper (normSemi (wrapSelect s1))
      rw [hq]
      simp only [pyUpper, List.map_append]
      rw [hmapp]
      exact List.prefix_append _ _
    have hps2 : pyStrip (normSemi (wrapSelect s1)) =
        normSemi (wrapSelect s1) :=
      pyStrip_eq_self hhead (not_ws_of_toUpper hc0 (by decide))
        hlastq (by decide)
    exact clean_of_fixed hsf hps2 hbq hselq hjq (normSemi_idem _)
  · have hs2 : wrapSelect s1 = wherePfx ++ s1 := by
      simp only [wrapSelect]
      rw [if_neg hsel]
    have hq : normSemi (wrapSelect s1) =
        wherePfx ++ (rstripSemis s1 ++ [';']) := by
      rw [hs2, normSemi, rstripSemis_append _ _ (by decide),
        List.append_assoc]
    have hhead : (normSemi (wrapSelect s1)).head? = some 'S' := by
      rw [hq, List.head?_append,
        show wherePfx.head? = some 'S' from by decide]
      rfl
    have hselq : startsWithSelect (normSemi (wrapSelect s1)) := by
      show "SELECT".toList <+: pyUpper (normSemi (wrapSelect s1))
      rw [hq]
      simp only [pyUpper, List.map_append]
      exact List.IsPrefix.trans (by decide) (List.prefix_append _ _)
    have hps2 : pyStrip (normSemi (wrapSelect s1)) =
        normSemi (wrapSelect s1) :=
      pyStrip_eq_self hhead (by decide) hlastq (by decide)
    exact clean_of_fixed hsf hps2 hbq hselq hjq (normSemi_idem _)

/-- C7.  The guard is idempotent: re-guarding any successful guard
output succeeds and returns it exactly unchanged (so in particular
unchanged up to semicolon re-normalization), and the semicolon
normalization step itself is idempotent. -/
theorem guard_idempotent :
    (∀ raw q, clean_sql_query raw = some q → clean_sql_query q = some q) ∧
    (∀ l, normSemi (normSemi l) = normSemi l) := by
  constructor
  · intro raw q h
    simp only [clean_sql_query] at h
    by_cases hb : containsAnyBlacklisted (pyStrip (stripFences raw))
    · rw [if_pos hb] at h
      exact absurd h (by simp)
    · rw [if_neg hb] at h
      by_cases hj : hasJoin (wrapSelect (pyStrip (stripFences raw)))
      · rw [if_pos hj] at h
        obtain rfl : q = normSemi salesFallback :=
          (Option.some_inj.mp h).symm
        rw [show normSemi salesFallback = salesFallback from by decide]
        decide
      · rw [if_neg hj] at h
        obtain rfl : q = normSemi (wrapSelect (pyStrip (stripFences raw))) :=
          (Option.some_inj.mp h).symm
        exact clean_fixpoint_aux _
          (fun hc => noTriple_stripFences raw ( hc.trans (pyStripWithin _)))
          hb hj
  · exact normSemi_idem

/-- Witness for C7: re-guarding a concrete guarded output returns it
unchanged. -/
theorem guard_idempotent_witness :
    clean_sql_query "Age > 5".toList =
      some "SELECT * FROM Departments WHERE Age > 5;".toList ∧
    clean_sql_query "SELECT * FROM Departments WHERE Age > 5;".toList =
      some "SELECT * FROM Departments WHERE Age > 5;".toList :=
  ⟨by decide, guard_idempotent.1 "Age > 5".toList _ (by decide)⟩

end NlpToSql
